import Mathlib

/-!
# Verification of the MarketBasket pipeline (SimonNorton_MarketBasket.py)

Shallow embedding of the market-basket co-occurrence pipeline:
  * `create_subfiles` — the Chunker: splits the input line stream into chunk
    files of approximately `line_limit` lines (lines 73-115 of the source);
  * `proc_baskets` — the Basket Assembler: groups a chunk's csv rows into
    baskets and expands each basket into canonical product pairs
    (lines 119-150);
  * `count_product_tuples` — the Pair Counter: tallies pair occurrences per
    chunk (lines 154-177);
  * `proc_subdata` — the Cross-Chunk Merger: consolidates the per-chunk
    pair-count files into the final report (lines 181-240).

Lines of the input stream are modelled as `String`s with their trailing
newline stripped (the newline takes part in none of the comparisons the code
performs, and stripping it is a bijection on lines).  End of stream
(`readline` returning `''`) is modelled by the end of the list.  Python dicts
are modelled as association lists in insertion order, which is exactly the
iteration order of a Python 3.7+ dict.  Pandas dataframes of pair-count rows
are modelled as lists of `(pair, count)` rows in dataframe row order.
Python's string comparison (lexicographic by code point) and `sorted`
(a stable comparison sort) are modelled by an explicit lexicographic order
on the character data and `List.insertionSort`.
-/

/-- A canonical product pair `(p1, p2)`. -/
abbrev Pair := String × String

/-- Rows of a pair-count dataframe / tuplecount csv file: `(p1, p2, count)`. -/
abbrev CountDF := List (Pair × Nat)

/-! ## String order and csv splitting primitives -/

/-- Lexicographic order on character lists, by code point — Python's `<` on
strings. -/
def listLt : List Char → List Char → Bool
  | [], [] => false
  | [], _ :: _ => true
  | _ :: _, [] => false
  | a :: as, b :: bs => if a < b then true else if b < a then false else listLt as bs

/-- Python `a < b` on strings. -/
def strLt (a b : String) : Bool := listLt a.data b.data

/-- Python `a <= b` on strings (total order, so the negation of `b < a`). -/
def strLe (a b : String) : Bool := !(strLt b a)

/-- The `sorted` order used when Python sorts strings. -/
abbrev strLeR (a b : String) : Prop := strLe a b = true

/-- Python `a <= b` on pairs of strings: lexicographic tuple comparison. -/
def pairLe (a b : Pair) : Bool :=
  strLt a.1 b.1 || (a.1 == b.1 && strLe a.2 b.2)

/-- The `sorted` order used when Python sorts lists of pair tuples. -/
abbrev pairLeR (a b : Pair) : Prop := pairLe a b = true

/-- Split a character list at every `,`. -/
def commaSplit : List Char → List (List Char)
  | [] => [[]]
  | c :: rest =>
    if c = ',' then [] :: commaSplit rest
    else
      match commaSplit rest with
      | [] => [[c]]
      | g :: gs => (c :: g) :: gs

/-- The csv row of one chunk-file line, as `csv.reader` parses it: the
comma-separated fields, a blank line giving the empty row. -/
def rowOfLine (line : String) : List String :=
  if line = "" then [] else (commaSplit line.data).map String.mk

/-- The basket id of a raw line `basket_id,product_id`: the text before the
first comma (column 0 of the csv row). -/
def basketId (line : String) : String :=
  (rowOfLine line).headD ""

/-! ## Chunker: `create_subfiles` (source lines 73-115)

The inner `while line_counter <= line_limit` loop writes `current_line`,
reads the next line, and then either
  * stops at end of stream,
  * `continue`s without incrementing `line_counter` when the counter has
    reached the limit and the line just read is *identical to the whole line
    just written* (source line 101: `current_line == writ_basket`), or
  * increments the counter, leaving the loop once it exceeds the limit.
-/

/-- One iteration group of the inner loop of `create_subfiles`: starting with
the loop invariant `counter ≤ limit` about to write `cur`, returns the lines
written to the current chunk file and the remaining stream. -/
def fileLoop (limit : Nat) : Nat → String → List String → List String × List String
  | _, cur, [] => ([cur], [])
  | counter, cur, next :: rest =>
    if counter = limit ∧ next = cur then
      -- source line 101-102: `continue` without incrementing the counter
      let (f, rem) := fileLoop limit counter next rest
      (cur :: f, rem)
    else if counter + 1 ≤ limit then
      -- counter incremented; the `while` guard still holds
      let (f, rem) := fileLoop limit (counter + 1) next rest
      (cur :: f, rem)
    else
      -- counter incremented past the limit: the inner loop exits,
      -- `next` is still pending for the following chunk file
      ([cur], next :: rest)

theorem fileLoop_rem_length_le (limit : Nat) :
    ∀ counter cur lines, (fileLoop limit counter cur lines).2.length ≤ lines.length := by
  intro counter cur lines
  induction lines generalizing counter cur with
  | nil => simp [fileLoop]
  | cons next rest ih =>
    rw [fileLoop]
    split
    · have := ih counter next
      exact Nat.le_trans (by exact this) (Nat.le_succ _)
    · split
      · have := ih (counter + 1) next
        exact Nat.le_trans (by exact this) (Nat.le_succ _)
      · simp

/-- The outer `while current_line:` loop of `create_subfiles`: the list of
chunk files produced from the stream `lines` with budget `limit`. -/
def create_subfiles (limit : Nat) (lines : List String) : List (List String) :=
  match lines with
  | [] => []
  | cur :: rest =>
    (fileLoop limit 0 cur rest).1 :: create_subfiles limit (fileLoop limit 0 cur rest).2
termination_by lines.length
decreasing_by
  exact Nat.lt_succ_of_le (fileLoop_rem_length_le limit 0 cur rest)

/-! ## Basket Assembler: `proc_baskets` (source lines 119-150)

A chunk file's csv rows are the chunk's lines split on `,`.  The first loop
builds `basket_dict` (an insertion-ordered dict `basket_id ↦ accumulated
product list`): `row[0]` raises an `IndexError` on an empty row, which
propagates out of `proc_baskets`; this is modelled by `Option`.  The dict is
then key-sorted, each basket's contents are deduplicated and sorted, and each
basket is expanded into its sorted list of canonical pairs. -/

/-- One iteration of the `for row in csv_f` loop (source lines 128-132):
`row[0]` fails on an empty row; otherwise the row's tail is appended to the
basket's product list (new baskets are appended at the end, as Python dict
insertion does). -/
def addRow (d : List (String × List String)) (row : List String) :
    Option (List (String × List String)) :=
  match row with
  | [] => none
  | id :: prods =>
    if d.any (fun e => e.1 = id) then
      some (d.map (fun e => if e.1 = id then (e.1, e.2 ++ prods) else e))
    else
      some (d ++ [(id, prods)])

/-- `basket_dict` after the csv loop of `proc_baskets`. -/
def buildBasketDict (rows : List (List String)) :
    Option (List (String × List String)) :=
  rows.foldlM addRow []

/-- `sorted(list(set(contents)))` (source line 135). -/
def dedupSort (l : List String) : List String := l.dedup.insertionSort strLeR

/-- The pair comprehension of source lines 142-143 applied to one basket's
contents, followed by Python's `sorted`:
`sorted([(e1, e2) for e1 in contents for e2 in contents if e1 < e2])`. -/
def pairsOf (contents : List String) : List Pair :=
  (contents.flatMap (fun e1 =>
    contents.filterMap (fun e2 =>
      if strLt e1 e2 then some (e1, e2) else none))).insertionSort pairLeR

/-- `proc_baskets` on the rows of one chunk file: the dict from basket id to
that basket's sorted list of canonical pairs (`file_of_baskets`), in sorted
basket-id order (`for key in sorted(basket_dict)` at source line 135). -/
def proc_baskets (rows : List (List String)) : Option (List (String × List Pair)) :=
  (buildBasketDict rows).map (fun d =>
    (d.map (fun e => e.1)).insertionSort strLeR |>.map (fun key =>
      (key, pairsOf (dedupSort (((d.find? (fun e => e.1 = key)).map (fun e => e.2)).getD [])))))

/-! ## Pair Counter: `count_product_tuples` (source lines 154-177)

`collections.Counter` over the concatenation of all baskets' pair lists
(`itertools.chain.from_iterable(file_of_baskets.values())`), then an identity
re-summation into `summed_tuples`; rows are written in dict order, i.e. in
order of first occurrence of each pair. -/

/-- One `Counter` update: first occurrence appends `(p, 1)`, later
occurrences increment the existing entry in place. -/
def counterAdd (acc : CountDF) (p : Pair) : CountDF :=
  if acc.any (fun e => e.1 = p) then
    acc.map (fun e => if e.1 = p then (e.1, e.2 + 1) else e)
  else
    acc ++ [(p, 1)]

/-- The rows of the `_tuplecount.csv` file written by `count_product_tuples`
for one chunk's `file_of_baskets`. -/
def count_product_tuples (file_of_baskets : List (String × List Pair)) : CountDF :=
  (file_of_baskets.flatMap (fun e => e.2)).foldl counterAdd []

/-! ## Cross-Chunk Merger: `proc_subdata` (source lines 181-240)

The sorted tuplecount files are processed in order.  The primary `proc_df`
is compared to every later file `comp_df`:
  * empty files are skipped (source lines 188-190, 202-204);
  * `mrg_df = pd.merge(proc_df, comp_df, on=['Product_1','Product_2'])` is
    the inner join on the pair key; when it is empty the secondary is left
    untouched (lines 209-214);
  * `upd_df` holds the matched keys with `num_baskets_x + num_baskets_y`
    (line 216); the primary is left-merged with `upd_df` and each row becomes
    `max(num_baskets_x, num_baskets_y)` — pandas `max(1)` skips the NaN of
    unmatched rows, so an unmatched row keeps its original count
    (lines 219-222);
  * the secondary row drop (lines 225-227) computes
    `comp_drop_idx = (comp_df['num_baskets_y'] > 0).index`, which is the
    index of the *whole* boolean series — i.e. every row label of `comp_df`
    — so `comp_df.drop(comp_drop_idx)` removes **all** rows of the
    secondary, matched or not, and line 233 persists the now-empty file.
Each finalized primary is appended to the report (lines 236-239). -/

/-- `pd.merge(a, b, on=key)`-style lookup: the count stored in `df` for the
pair key `k`, if present. -/
def dfLookup (df : CountDF) (k : Pair) : Option Nat :=
  (df.find? (fun r => r.1 = k)).map (fun r => r.2)

/-- `upd_df` (source line 216): the keys present in both dataframes, each
with the sum of the two counts, in primary row order (pandas inner-join
order for `pd.merge(proc_df, comp_df, ...)`). -/
def updDF (p c : CountDF) : CountDF :=
  p.filterMap (fun r => (dfLookup c r.1).map (fun v => (r.1, r.2 + v)))

/-- The primary update of source lines 219-222: left merge with `upd_df`,
then `max(num_baskets_x, num_baskets_y)` per row, NaN skipped. -/
def applyUpd (p upd : CountDF) : CountDF :=
  p.map (fun r =>
    match dfLookup upd r.1 with
    | some v => (r.1, max r.2 v)
    | none => r)

/-- One secondary comparison (the body of the `for next_idx in proc_range`
loop, source lines 198-234): returns the updated primary dataframe and the
on-disk content of the secondary file after the iteration.  When at least
one pair matches, the faulty drop of lines 226-227 erases every row of the
secondary and line 233 writes the empty frame back. -/
def compareStep (p c : CountDF) : CountDF × CountDF :=
  if c.isEmpty then
    (p, c)
  else
    let upd := updDF p c
    if upd.isEmpty then
      (p, c)
    else
      (applyUpd p upd, [])

/-- The full secondary loop for one primary: threads the primary through
`compareStep` against each later file and collects the files' new contents. -/
def primaryPass (p : CountDF) (files : List CountDF) : CountDF × List CountDF :=
  match files with
  | [] => (p, [])
  | c :: rest =>
    let pc := compareStep p c
    let prest := primaryPass pc.1 rest
    (prest.1, pc.2 :: prest.2)

theorem primaryPass_files_length (p : CountDF) (files : List CountDF) :
    (primaryPass p files).2.length = files.length := by
  induction files generalizing p with
  | nil => rfl
  | cons c rest ih => simp [primaryPass, ih]

/-- The outer `for proc_file in subdata_list` loop of `proc_subdata`: each
non-empty file in turn becomes the primary, is compared against all later
files, and its finalized rows are appended to the report.  The result is the
report as the list of appended primary dataframes. -/
def proc_subdata (files : List CountDF) : List CountDF :=
  match files with
  | [] => []
  | f :: rest =>
    if f.isEmpty then
      proc_subdata rest
    else
      (primaryPass f rest).1 :: proc_subdata (primaryPass f rest).2
termination_by files.length
decreasing_by
  · exact Nat.lt_succ_self _
  · rw [primaryPass_files_length]
    exact Nat.lt_succ_self _

/-! ## Pipeline composition (`__main__`, source lines 244-266)

`create_subfiles` splits the stream, each chunk file goes through
`proc_baskets` and `count_product_tuples`, and `proc_subdata` merges the
tuplecount files into the report.  An `IndexError` escaping `proc_baskets`
crashes the run, hence the `Option`. -/

/-- The tuplecount file content of one chunk file: `proc_baskets` followed by
`count_product_tuples` (the loop body of source lines 259-261). -/
def chunkCount (chunk : List String) : Option CountDF :=
  (proc_baskets (chunk.map rowOfLine)).map count_product_tuples

/-- The tuplecount files of all chunk files, in chunk order. -/
def pipelineTupleCounts (limit : Nat) (lines : List String) : Option (List CountDF) :=
  (create_subfiles limit lines).mapM chunkCount

/-- The final report, as the list of primary dataframes appended to the
report file, one per non-empty primary. -/
def pipelineReport (limit : Nat) (lines : List String) : Option (List CountDF) :=
  (pipelineTupleCounts limit lines).map proc_subdata

/-- Total of the `num_baskets` column over all rows of the final report. -/
def reportTotal (report : List CountDF) : Nat :=
  (report.flatMap id).foldl (fun acc r => acc + r.2) 0

/-- The direct, non-chunked reference computation: the whole input is one
dataset; its total number of (pair, basket) occurrences is the sum over all
baskets of the number of canonical pairs of the basket's distinct
products. -/
def directTotal (lines : List String) : Option Nat :=
  (proc_baskets (lines.map rowOfLine)).map
    (fun fob => (fob.flatMap (fun e => e.2)).length)

/-! ## Concrete evaluations used by several results -/

theorem pipelineTupleCounts_c1input :
    pipelineTupleCounts 3 ["1,A","1,B","2,C","2,D","3,A","3,B","4,E","4,F"]
      = some [[(("A","B"),1), (("C","D"),1)], [(("A","B"),1), (("E","F"),1)]] := by
  simp [pipelineTupleCounts, create_subfiles, fileLoop]
  rfl

theorem proc_subdata_c1input :
    proc_subdata [[(("A","B"),1), (("C","D"),1)], [(("A","B"),1), (("E","F"),1)]]
      = [[(("A","B"),2), (("C","D"),1)]] := by
  simp [proc_subdata, primaryPass, compareStep, updDF, dfLookup, applyUpd]

/-!
## C1 — count conservation across chunking and merging

The claim: for every input and line budget, the sum of `num_baskets` over the
final report equals the number of (pair, basket) occurrences of a direct,
non-chunked computation.

The code violates this.  Because `proc_subdata`'s row-drop step
(source lines 226-227) computes `comp_drop_idx` as the index of the whole
boolean series instead of the rows satisfying the condition, a secondary
file that matches the primary on at least one pair is truncated to empty,
discarding its *unmatched* rows as well.  On the 8-line input below the
occurrence `(E,F)` of basket 4 survives chunking and per-chunk counting but
is erased during the merge: the report total is 3 while the direct total is
4.  The code's own description (source lines 26-28: matched tuples are
"removed from the secondary file" so that "the same matching tuple does not
get counted more than once") and the comment at line 224 ("delete merged row
from subfile") show that dropping only the matched rows was intended, so
this is a defect of the code rather than of the claim.
-/

/-- C1: the pipeline's final report on input
`1,A 1,B 2,C 2,D 3,A 3,B 4,E 4,F` with `line_limit = 3` carries a
`num_baskets` total of 3, while the direct non-chunked computation over the
same dataset counts 4 (pair, basket) occurrences: the `(E,F)` occurrence is
lost, refuting count conservation. -/
theorem C1_pipeline_total_ne_direct_total :
    (pipelineReport 3 ["1,A","1,B","2,C","2,D","3,A","3,B","4,E","4,F"]).map reportTotal
        = some 3
      ∧ directTotal ["1,A","1,B","2,C","2,D","3,A","3,B","4,E","4,F"] = some 4
      ∧ (3 : Nat) ≠ 4 := by
  refine ⟨?_, rfl, by decide⟩
  rw [pipelineReport, pipelineTupleCounts_c1input, Option.map_some', proc_subdata_c1input]
  rfl

/-!
## C2 — baskets are never split across chunk files

The claim: `create_subfiles` places all records of a basket in one chunk
file.  The code's rollover test (source line 101) compares the *whole* line
just read with the whole line just written (`current_line == writ_basket`),
not their basket ids.  Consecutive records of one basket carry different
product ids, so the test fails on them and the file rolls over mid-basket.
The function's own header comment (source lines 10-13: "a basket is not
divided up between multiple files.  All the lines for any given basket are
contained in one file") states the opposite intent, so the code, not the
claim, is at fault.
-/

/-- C2: with `line_limit = 1`, the three contiguous records of basket `1`
are split by `create_subfiles` across two chunk files: `1,A` and `1,B` land
in chunk 1 and `1,C` in chunk 2, although all three lines carry the same
basket id. -/
theorem C2_basket_split_across_two_chunks :
    create_subfiles 1 ["1,A","1,B","1,C"] = [["1,A","1,B"], ["1,C"]]
      ∧ basketId "1,A" = "1" ∧ basketId "1,B" = "1" ∧ basketId "1,C" = "1" := by
  refine ⟨?_, rfl, rfl, rfl⟩
  simp [create_subfiles, fileLoop]

/-!
## C3 — only matched pairs are removed from the secondary

The claim: a comparison pass removes exactly the matched pairs from the
secondary's persisted record set, and every unmatched pair survives with its
count unchanged.  In the code, once any pair matches, lines 226-227 drop
*every* row label of `comp_df`, and line 233 persists the empty frame: the
unmatched rows are destroyed too.  The comment at line 224 ("delete merged
row from subfile so it doesn't get counted again") documents the intended
matched-rows-only removal, so this is a code defect.
-/

/-- C3: comparing the primary `{(A,B) ↦ 1}` with the secondary
`{(A,B) ↦ 1, (C,D) ↦ 1}` persists an *empty* secondary: the unmatched pair
`(C,D)` is removed from the secondary file along with the matched `(A,B)`,
contradicting the matched-pairs-only contract. -/
theorem C3_unmatched_secondary_rows_destroyed :
    compareStep [(("A","B"),1)] [(("A","B"),1), (("C","D"),1)]
      = ([(("A","B"),2)], []) := rfl

/-!
## C4 — the worked scenario of the spec

Baskets `{1:[A,B]}, {2:[A,B]}, {3:[A,C]}`, chunked with basket 1 alone in
chunk 1 and baskets 2,3 in chunk 2.  The per-chunk pair-count files are as
the claim states, but the merged report is `[(A,B,2)]` only: the row
`(A,C,1)` is destroyed when the first comparison pass truncates the whole
secondary file (the same defect as in C1/C3), while the claim (and the
code's own intent) expects `[(A,B,2),(A,C,1)]`.
-/

/-- C4: on the scenario's two chunks, the per-chunk tuplecount files are
`[(A,B,1)]` and `[(A,B,1),(A,C,1)]` exactly as claimed, but the merged
report of `proc_subdata` is `[[(A,B,2)]]` — the row `(A,C,1)` claimed for
the final report is missing. -/
theorem C4_scenario_report_misses_AC :
    chunkCount ["1,A","1,B"] = some [(("A","B"),1)]
      ∧ chunkCount ["2,A","2,B","3,A","3,C"] = some [(("A","B"),1), (("A","C"),1)]
      ∧ proc_subdata [[(("A","B"),1)], [(("A","B"),1), (("A","C"),1)]]
          = [[(("A","B"),2)]] := by
  refine ⟨rfl, rfl, ?_⟩
  simp [proc_subdata, primaryPass, compareStep, updDF, dfLookup, applyUpd]

/-!
## C9 — malformed rows and `proc_baskets`

The claim: any row whose column count differs from 2 raises a fatal parse
error that propagates, and malformed rows are never silently folded into a
basket.  In the code the only failing access is `row[0]` on a *zero-field*
row; a one-field row silently creates (or extends) a basket with no
products, and a row of three or more fields is silently folded in with every
field after the first treated as a product.
-/

/-- C9 counterexample: the malformed three-column row `5,A,B` does not raise
any error — `proc_baskets` returns normally and the extra field `B` has been
folded into basket `5` as a product, yielding the pair `(A,B)`. -/
theorem C9_counterexample_three_column_row_folded :
    proc_baskets [["5","A","B"]] = some [("5", [("A","B")])] := rfl

/-!
## C10 — tuplecount counts are strictly positive

Every row written to a `_tuplecount.csv` file comes from `Counter`, so its
count is the number of occurrences of a pair that occurred at least once.
-/

theorem counterAdd_pos (acc : CountDF) (p : Pair)
    (h : ∀ r ∈ acc, 1 ≤ r.2) : ∀ r ∈ counterAdd acc p, 1 ≤ r.2 := by
  intro r hr
  unfold counterAdd at hr
  split at hr
  · rcases List.mem_map.mp hr with ⟨e, he, hre⟩
    by_cases hp : e.1 = p
    · rw [if_pos hp] at hre
      rw [← hre]
      exact Nat.succ_le_succ (Nat.zero_le _)
    · rw [if_neg hp] at hre
      rw [← hre]
      exact h e he
  · rcases List.mem_append.mp hr with hl | hl
    · exact h r hl
    · simp only [List.mem_singleton] at hl
      rw [hl]

theorem foldl_counterAdd_pos (l : List Pair) :
    ∀ acc, (∀ r ∈ acc, 1 ≤ r.2) → ∀ r ∈ l.foldl counterAdd acc, 1 ≤ r.2 := by
  induction l with
  | nil => intro acc h; simpa using h
  | cons p rest ih =>
    intro acc h
    exact ih (counterAdd acc p) (counterAdd_pos acc p h)

/-- C10: every pair-count record written by `count_product_tuples` to a
per-chunk tuplecount file has a strictly positive count: `count ≥ 1`. -/
theorem C10_tuplecount_counts_positive (fob : List (String × List Pair))
    (r : Pair × Nat) (hr : r ∈ count_product_tuples fob) : 1 ≤ r.2 :=
  foldl_counterAdd_pos _ [] (by intro r hr; cases hr) r hr

/-- Witness for C10 at a concrete chunk: the record `((A,B), 1)` produced by
`count_product_tuples` for a chunk holding one basket with pair `(A,B)` has
a positive count. -/
theorem C10_witness :
    (((("A","B"), 1) : Pair × Nat) ∈ count_product_tuples [("1", [("A","B")])])
      ∧ 1 ≤ (((("A","B"), 1) : Pair × Nat)).2 :=
  ⟨by decide, C10_tuplecount_counts_positive [("1", [("A","B")])] (("A","B"), 1) (by decide)⟩

/-!
## C9 (amended) — which malformed rows actually fail

`proc_baskets` fails exactly when some row of the chunk is a *zero-field*
row (`row[0]` raises `IndexError`); a one-field row silently yields a basket
with no products, and rows of three or more fields are silently folded in
with all fields after the first treated as products.
-/

theorem addRow_eq_none_iff (d : List (String × List String)) (row : List String) :
    addRow d row = none ↔ row = [] := by
  cases row with
  | nil => simp [addRow]
  | cons id prods =>
    constructor
    · intro h
      simp only [addRow] at h
      by_cases hc : (d.any (fun e => e.1 = id)) = true
      · rw [if_pos hc] at h; cases h
      · rw [if_neg hc] at h; cases h
    · intro h
      cases h

theorem foldlM_addRow_eq_none_iff (rows : List (List String)) :
    ∀ d, rows.foldlM addRow d = none ↔ [] ∈ rows := by
  induction rows with
  | nil => intro d; simp
  | cons row rest ih =>
    intro d
    rw [List.foldlM_cons]
    cases hrow : addRow d row with
    | none =>
      have : row = [] := (addRow_eq_none_iff d row).mp hrow
      simp [this]
    | some d' =>
      have hne : row ≠ [] := by
        intro h
        rw [(addRow_eq_none_iff d row).mpr h] at hrow
        cases hrow
      simp only [Option.bind_eq_bind, Option.some_bind, List.mem_cons]
      rw [ih d']
      constructor
      · exact Or.inr
      · rintro (h | h)
        · exact absurd h.symm hne
        · exact h

/-- C9 (amended): `proc_baskets` raises a propagating error exactly when a
chunk contains a zero-field row; every row with at least one field is
accepted silently — a one-field row produces a basket with no products and a
three-field row is folded in with both trailing fields as products. -/
theorem C9_amended_only_empty_rows_fatal :
    (∀ rows, proc_baskets rows = none ↔ [] ∈ rows)
      ∧ proc_baskets [["5"]] = some [("5", [])]
      ∧ proc_baskets [["5","A","B"],["5","C"]] = some [("5", [("A","B"),("A","C"),("B","C")])] := by
  refine ⟨?_, rfl, rfl⟩
  intro rows
  unfold proc_baskets buildBasketDict
  rw [Option.map_eq_none']
  exact foldlM_addRow_eq_none_iff rows []

/-!
## C6 — pair generation is exactly the canonical 2-combinations

Supporting development: characterize `basket_dict` as the accumulated
`row[1:]` products per basket id, then characterize `pairsOf`.
-/

/-- The products accumulated for basket `b` over a chunk's rows: the
concatenation of `row[1:]` over the rows with `row[0] = b`. -/
def rawProducts (rows : List (List String)) (b : String) : List String :=
  rows.flatMap (fun row =>
    match row with
    | [] => []
    | id :: prods => if id = b then prods else [])

/-- `basket_dict[b]`, when the key is present. -/
def assocGet (d : List (String × List String)) (b : String) : Option (List String) :=
  (d.find? (fun e => e.1 = b)).map (fun e => e.2)

theorem assocGet_cons (e : String × List String) (rest : List (String × List String))
    (b : String) :
    assocGet (e :: rest) b = if e.1 = b then some e.2 else assocGet rest b := by
  by_cases heb : e.1 = b
  · rw [assocGet, List.find?_cons_of_pos _ (by simpa using heb), if_pos heb]
    rfl
  · rw [assocGet, List.find?_cons_of_neg _ (by simpa using heb), if_neg heb]
    rfl

theorem assocGet_update (d : List (String × List String)) (id : String)
    (prods : List String) (b : String) :
    assocGet (d.map (fun e => if e.1 = id then (e.1, e.2 ++ prods) else e)) b
      = (assocGet d b).map (fun v => if b = id then v ++ prods else v) := by
  induction d with
  | nil => rfl
  | cons e rest ih =>
    by_cases he : e.1 = id
    · by_cases heb : e.1 = b
      · have hbid : b = id := by rw [← heb, he]
        simp [assocGet_cons, he, heb, hbid]
      · have hidb : ¬ id = b := by rw [← he]; exact heb
        simp [assocGet_cons, he, heb, hidb, ih]
    · by_cases heb : e.1 = b
      · have hbid : ¬ b = id := by rw [← heb]; exact he
        simp [assocGet_cons, he, heb, hbid]
      · simp [assocGet_cons, he, heb, ih]

theorem assocGet_eq_none_of_any_false (d : List (String × List String))
    (id : String) (hc : d.any (fun e => e.1 = id) = false) : assocGet d id = none := by
  unfold assocGet
  rw [List.find?_eq_none.mpr]
  · rfl
  · intro x hx
    exact List.any_eq_false.mp hc x hx

theorem assocGet_append_new (d : List (String × List String)) (id : String)
    (prods : List String) (hc : d.any (fun e => e.1 = id) = false) (b : String) :
    assocGet (d ++ [(id, prods)]) b
      = if b = id then some prods else assocGet d b := by
  induction d with
  | nil =>
    by_cases hb : b = id
    · simp [assocGet_cons, hb]
    · have hid : ¬ id = b := fun h => hb h.symm
      simp [assocGet_cons, hb, hid, assocGet]
  | cons e rest ih =>
    have hc2 : (e.1 = id) = False ∧ rest.any (fun x => x.1 = id) = false := by
      simp only [List.any_cons, Bool.or_eq_false_iff] at hc
      constructor
      · simpa using hc.1
      · exact hc.2
    by_cases heb : e.1 = b
    · have hbid : ¬ b = id := by
        intro hh
        exact (hc2.1 ▸ (heb.trans hh) : False)
      simp [List.cons_append, assocGet_cons, heb, hbid]
    · simp [List.cons_append, assocGet_cons, heb, ih hc2.2]

theorem addRow_assocGet (d d' : List (String × List String)) (id : String)
    (prods : List String) (h : addRow d (id :: prods) = some d') (b : String) :
    (assocGet d' b).getD [] = (assocGet d b).getD [] ++ (if id = b then prods else []) := by
  simp only [addRow] at h
  by_cases hc : (d.any (fun e => e.1 = id)) = true
  · rw [if_pos hc] at h
    injection h with h
    subst h
    rw [assocGet_update]
    by_cases hb : b = id
    · subst hb
      have hsome : (d.find? (fun e => decide (e.1 = b))).isSome = true := by
        rw [List.find?_isSome]
        exact List.any_eq_true.mp hc
      cases hf : d.find? (fun e => decide (e.1 = b)) with
      | none => rw [hf] at hsome; cases hsome
      | some e => simp [assocGet, hf]
    · have hid : ¬ id = b := fun h => hb h.symm
      cases hf : assocGet d b with
      | none => simp [hf, hid]
      | some v => simp [hf, hb, hid]
  · rw [if_neg hc] at h
    injection h with h
    subst h
    have hcf : d.any (fun e => e.1 = id) = false := Bool.eq_false_iff.mpr hc
    rw [assocGet_append_new d id prods hcf]
    by_cases hb : b = id
    · subst hb
      rw [assocGet_eq_none_of_any_false d b hcf]
      simp
    · have hid : ¬ id = b := fun h => hb h.symm
      simp [hb, hid]

theorem foldlM_addRow_assocGet (rows : List (List String)) :
    ∀ d0 d, rows.foldlM addRow d0 = some d → ∀ b,
      (assocGet d b).getD [] = (assocGet d0 b).getD [] ++ rawProducts rows b := by
  induction rows with
  | nil =>
    intro d0 d h b
    simp only [List.foldlM_nil] at h
    injection h with h
    subst h
    simp [rawProducts]
  | cons row rest ih =>
    intro d0 d h b
    rw [List.foldlM_cons] at h
    cases hrow : addRow d0 row with
    | none =>
      rw [hrow] at h
      simp at h
    | some d1 =>
      rw [hrow] at h
      simp only [Option.bind_eq_bind, Option.some_bind] at h
      cases row with
      | nil =>
        rw [(addRow_eq_none_iff d0 []).mpr rfl] at hrow
        cases hrow
      | cons id prods =>
        have hstep := addRow_assocGet d0 d1 id prods hrow b
        have hrest := ih d1 d h b
        rw [hrest, hstep, List.append_assoc]
        have hraw : rawProducts ((id :: prods) :: rest) b
            = (if id = b then prods else []) ++ rawProducts rest b := by
          simp [rawProducts, List.flatMap_cons]
        rw [hraw]

theorem listLt_irrefl : ∀ l : List Char, listLt l l = false := by
  intro l
  induction l with
  | nil => rfl
  | cons a as ih => simp [listLt, ih]

theorem strLt_irrefl (s : String) : strLt s s = false := listLt_irrefl s.data

theorem pairsOf_base_mem (c : List String) (p1 p2 : String) :
    ((p1, p2) ∈ c.flatMap (fun e1 =>
        c.filterMap (fun e2 => if strLt e1 e2 then some (e1, e2) else none)))
      ↔ (p1 ∈ c ∧ p2 ∈ c ∧ strLt p1 p2 = true) := by
  rw [List.mem_flatMap]
  constructor
  · rintro ⟨e1, he1, hmem⟩
    rcases List.mem_filterMap.mp hmem with ⟨e2, he2, hf⟩
    by_cases hlt : strLt e1 e2 = true
    · rw [if_pos hlt] at hf
      simp only [Option.some.injEq, Prod.mk.injEq] at hf
      obtain ⟨rfl, rfl⟩ := hf
      exact ⟨he1, he2, hlt⟩
    · rw [if_neg hlt] at hf
      cases hf
  · rintro ⟨h1, h2, hlt⟩
    exact ⟨p1, h1, List.mem_filterMap.mpr ⟨p2, h2, by rw [if_pos hlt]⟩⟩

theorem mem_dedupSort (l : List String) (x : String) : x ∈ dedupSort l ↔ x ∈ l := by
  unfold dedupSort
  rw [(List.perm_insertionSort strLeR l.dedup).mem_iff, List.mem_dedup]

theorem nodup_dedupSort (l : List String) : (dedupSort l).Nodup :=
  (List.perm_insertionSort strLeR l.dedup).symm.nodup (List.nodup_dedup l)

theorem mem_pairsOf_dedupSort (l : List String) (p1 p2 : String) :
    (p1, p2) ∈ pairsOf (dedupSort l) ↔ (p1 ∈ l ∧ p2 ∈ l ∧ strLt p1 p2 = true) := by
  unfold pairsOf
  rw [(List.perm_insertionSort pairLeR _).mem_iff, pairsOf_base_mem]
  simp [mem_dedupSort]

theorem pairsOf_inner_fst (c : List String) (e1 : String) (x : Pair)
    (hx : x ∈ c.filterMap (fun e2 => if strLt e1 e2 then some (e1, e2) else none)) :
    x.1 = e1 := by
  rcases List.mem_filterMap.mp hx with ⟨e2, _, hf⟩
  by_cases hlt : strLt e1 e2 = true
  · rw [if_pos hlt] at hf
    simp only [Option.some.injEq] at hf
    rw [← hf]
  · rw [if_neg hlt] at hf
    cases hf

theorem nodup_pairsOf (c : List String) (hc : c.Nodup) : (pairsOf c).Nodup := by
  unfold pairsOf
  apply (List.perm_insertionSort pairLeR _).symm.nodup
  rw [List.nodup_flatMap]
  constructor
  · intro e1 _
    apply List.Nodup.filterMap _ hc
    intro a a' bb hba hba'
    have h1 : bb = (e1, a) := by
      by_cases hlt : strLt e1 a = true
      · rw [if_pos hlt] at hba
        simpa using hba.symm
      · rw [if_neg hlt] at hba
        cases hba
    have h2 : bb = (e1, a') := by
      by_cases hlt : strLt e1 a' = true
      · rw [if_pos hlt] at hba'
        simpa using hba'.symm
      · rw [if_neg hlt] at hba'
        cases hba'
    rw [h1] at h2
    simpa using h2
  · apply List.Pairwise.imp _ hc
    intro a b hab x hxa hxb
    exact hab ((pairsOf_inner_fst c a x hxa).symm.trans (pairsOf_inner_fst c b x hxb))

theorem pairsOf_short (c : List String) (h : c.length < 2) : pairsOf c = [] := by
  cases c with
  | nil => rfl
  | cons x rest =>
    cases rest with
    | nil => simp [pairsOf, strLt_irrefl]
    | cons y rest2 =>
      simp only [List.length_cons] at h
      omega

/-- C6: for every basket assembled by `proc_baskets`, the generated pair
list is exactly `pairsOf` of the basket's deduplicated sorted products; a
pair `(p1,p2)` is generated iff both products occur among the basket's raw
products with `p1 < p2` in the lexicographic string order; no pair is
repeated within a basket; the basket `{"b","a","c"}` yields exactly
`[(a,b),(a,c),(b,c)]`; and a basket with fewer than 2 distinct products
yields no pairs. -/
theorem C6_pairs_are_canonical_combinations :
    (∀ rows fob, proc_baskets rows = some fob → ∀ b ps, (b, ps) ∈ fob →
        ps = pairsOf (dedupSort (rawProducts rows b)))
      ∧ (∀ l p1 p2, (p1, p2) ∈ pairsOf (dedupSort l) ↔
          (p1 ∈ l ∧ p2 ∈ l ∧ strLt p1 p2 = true))
      ∧ (∀ l, (pairsOf (dedupSort l)).Nodup)
      ∧ pairsOf (dedupSort ["b","a","c"]) = [("a","b"),("a","c"),("b","c")]
      ∧ (∀ l, (dedupSort l).length < 2 → pairsOf (dedupSort l) = []) := by
  refine ⟨?_, mem_pairsOf_dedupSort, fun l => nodup_pairsOf _ (nodup_dedupSort l), rfl,
    fun l h => pairsOf_short _ h⟩
  intro rows fob h b ps hmem
  unfold proc_baskets at h
  cases hd : buildBasketDict rows with
  | none =>
    rw [hd] at h
    simp at h
  | some d =>
    rw [hd, Option.map_some'] at h
    injection h with h
    subst h
    rcases List.mem_map.mp hmem with ⟨key, hkey, heq⟩
    simp only [Prod.mk.injEq] at heq
    obtain ⟨rfl, hps⟩ := heq
    unfold buildBasketDict at hd
    have hval := foldlM_addRow_assocGet rows [] d hd key
    have hnil : assocGet [] key = none := rfl
    rw [hnil] at hval
    simp only [Option.getD_none, List.nil_append] at hval
    rw [← hps, ← hval]
    rfl

/-- Witness for C6: on the chunk rows `1,b 1,a 1,c`, basket `1`'s generated
pair list equals the canonical pair expansion of its raw products, and a
one-product basket content generates no pairs. -/
theorem C6_witness :
    ([(("a","b") : Pair), ("a","c"), ("b","c")]
        = pairsOf (dedupSort (rawProducts [["1","b"],["1","a"],["1","c"]] "1")))
      ∧ pairsOf (dedupSort ["x"]) = [] :=
  ⟨C6_pairs_are_canonical_combinations.1 [["1","b"],["1","a"],["1","c"]]
      [("1", [("a","b"),("a","c"),("b","c")])] rfl "1" [("a","b"),("a","c"),("b","c")]
      (by decide),
    C6_pairs_are_canonical_combinations.2.2.2.2 ["x"] (by decide)⟩

/-!
## C5 — no pair appears twice in the final report

The (faulty) merge still guarantees uniqueness: the comparison pass that
finalizes a primary truncates every later file sharing any key with it, and
leaves every other later file untouched, so each flushed primary's key set
is disjoint from every key that can still be flushed later.
-/

theorem applyUpd_keys (p upd : CountDF) :
    (applyUpd p upd).map (fun r => r.1) = p.map (fun r => r.1) := by
  unfold applyUpd
  rw [List.map_map]
  apply List.map_congr_left
  intro r _
  simp only [Function.comp]
  cases h : dfLookup upd r.1 <;> simp [h]

theorem dfLookup_eq_none_iff (c : CountDF) (k : Pair) :
    dfLookup c k = none ↔ ∀ r ∈ c, ¬ r.1 = k := by
  unfold dfLookup
  rw [Option.map_eq_none', List.find?_eq_none]
  simp

theorem updDF_eq_nil_iff (p c : CountDF) :
    updDF p c = [] ↔ ∀ r ∈ p, dfLookup c r.1 = none := by
  unfold updDF
  rw [List.filterMap_eq_nil_iff]
  constructor
  · intro h r hr
    have := h r hr
    rwa [Option.map_eq_none'] at this
  · intro h r hr
    rw [h r hr]
    rfl

theorem updDF_nil_disjoint (p c : CountDF) (h : updDF p c = []) :
    ∀ k ∈ p.map (fun r => r.1), k ∉ c.map (fun r => r.1) := by
  intro k hk hkc
  rcases List.mem_map.mp hk with ⟨r, hr, hrk⟩
  rcases List.mem_map.mp hkc with ⟨s, hs, hsk⟩
  have hnone := (updDF_eq_nil_iff p c).mp h r hr
  exact (dfLookup_eq_none_iff c r.1).mp hnone s hs (by rw [hsk, hrk])

theorem compareStep_fst_keys (p c : CountDF) :
    ((compareStep p c).1).map (fun r => r.1) = p.map (fun r => r.1) := by
  by_cases hc : c.isEmpty = true
  · simp [compareStep, hc]
  · by_cases hu : (updDF p c).isEmpty = true
    · simp [compareStep, hc, hu]
    · simp [compareStep, hc, hu, applyUpd_keys]

theorem compareStep_snd_cases (p c : CountDF) :
    (compareStep p c).2 = [] ∨ ((compareStep p c).2 = c ∧ updDF p c = []) := by
  by_cases hc : c.isEmpty = true
  · left
    simp [compareStep, hc, List.isEmpty_iff.mp hc]
  · by_cases hu : (updDF p c).isEmpty = true
    · right
      refine ⟨by simp [compareStep, hc, hu], List.isEmpty_iff.mp hu⟩
    · left
      simp [compareStep, hc, hu]

theorem primaryPass_spec (files : List CountDF) :
    ∀ p, ((primaryPass p files).1.map (fun r => r.1) = p.map (fun r => r.1))
      ∧ (∀ c' ∈ (primaryPass p files).2,
          c' = [] ∨ (c' ∈ files ∧ ∀ k ∈ p.map (fun r => r.1), k ∉ c'.map (fun r => r.1))) := by
  induction files with
  | nil =>
    intro p
    exact ⟨rfl, by intro c' hc'; cases hc'⟩
  | cons c rest ih =>
    intro p
    have ihp := ih (compareStep p c).1
    constructor
    · show ((primaryPass (compareStep p c).1 rest).1.map (fun r => r.1)) = _
      rw [ihp.1, compareStep_fst_keys]
    · intro c' hc'
      rcases List.mem_cons.mp hc' with hh | ht
      · rcases compareStep_snd_cases p c with hnil | ⟨hself, hupd⟩
        · exact Or.inl (hh.trans hnil)
        · right
          rw [hh, hself]
          exact ⟨List.mem_cons_self c rest, updDF_nil_disjoint p c hupd⟩
      · rcases ihp.2 c' ht with hnil | ⟨hmem, hdisj⟩
        · exact Or.inl hnil
        · right
          refine ⟨List.mem_cons_of_mem c hmem, ?_⟩
          intro k hk
          apply hdisj
          rwa [compareStep_fst_keys]

theorem proc_subdata_keys_sub (files : List CountDF) :
    ∀ df ∈ proc_subdata files, ∀ k ∈ df.map (fun r => r.1),
      ∃ c ∈ files, k ∈ c.map (fun r => r.1) := by
  induction files using proc_subdata.induct with
  | case1 =>
    intro df hdf
    rw [proc_subdata.eq_def] at hdf
    cases hdf
  | case2 f rest hf ih =>
    intro df hdf k hk
    rw [proc_subdata.eq_def] at hdf
    simp only [hf, if_pos] at hdf
    rcases ih df hdf k hk with ⟨c, hc, hkc⟩
    exact ⟨c, List.mem_cons_of_mem f hc, hkc⟩
  | case3 f rest hf ih =>
    intro df hdf k hk
    rw [proc_subdata.eq_def] at hdf
    simp only [hf, if_neg, if_false] at hdf
    rcases List.mem_cons.mp hdf with hh | ht
    · subst hh
      rw [(primaryPass_spec rest f).1] at hk
      exact ⟨f, List.mem_cons_self f rest, hk⟩
    · rcases ih df ht k hk with ⟨c, hc, hkc⟩
      rcases (primaryPass_spec rest f).2 c hc with hnil | ⟨hmem, _⟩
      · subst hnil
        cases hkc
      · exact ⟨c, List.mem_cons_of_mem f hmem, hkc⟩

theorem counterAdd_keys_nodup (acc : CountDF) (p : Pair)
    (h : (acc.map (fun r => r.1)).Nodup) : ((counterAdd acc p).map (fun r => r.1)).Nodup := by
  unfold counterAdd
  split
  · have hkeys : ((acc.map (fun e => if e.1 = p then (e.1, e.2 + 1) else e)).map (fun r => r.1))
        = acc.map (fun r => r.1) := by
      rw [List.map_map]
      apply List.map_congr_left
      intro r _
      simp only [Function.comp]
      by_cases hr : r.1 = p <;> simp [hr]
    rwa [hkeys]
  · rename_i hany
    rw [List.map_append, List.nodup_append]
    refine ⟨h, List.nodup_singleton p, ?_⟩
    intro k hk hkp
    simp only [List.map_cons, List.map_nil, List.mem_singleton] at hkp
    subst hkp
    rcases List.mem_map.mp hk with ⟨r, hr, hrk⟩
    have := List.any_eq_false.mp (Bool.eq_false_iff.mpr hany) r hr
    simp only [decide_eq_true_eq] at this
    exact this hrk

theorem foldl_counterAdd_keys_nodup (l : List Pair) :
    ∀ acc, (acc.map (fun r => r.1)).Nodup → ((l.foldl counterAdd acc).map (fun r => r.1)).Nodup := by
  induction l with
  | nil => intro acc h; simpa using h
  | cons p rest ih =>
    intro acc h
    exact ih (counterAdd acc p) (counterAdd_keys_nodup acc p h)

theorem count_product_tuples_keys_nodup (fob : List (String × List Pair)) :
    ((count_product_tuples fob).map (fun r => r.1)).Nodup :=
  foldl_counterAdd_keys_nodup _ [] (by simp)

theorem proc_subdata_flat_keys_nodup (files : List CountDF)
    (h : ∀ c ∈ files, (c.map (fun r => r.1)).Nodup) :
    (((proc_subdata files).flatMap id).map (fun r => r.1)).Nodup := by
  induction files using proc_subdata.induct with
  | case1 =>
    rw [proc_subdata.eq_def]
    simp
  | case2 f rest hf ih =>
    rw [proc_subdata.eq_def]
    simp only [hf, if_pos]
    exact ih (fun c hc => h c (List.mem_cons_of_mem f hc))
  | case3 f rest hf ih =>
    rw [proc_subdata.eq_def]
    simp only [hf, Bool.false_eq_true, if_false]
    rw [List.flatMap_cons, id, List.map_append, List.nodup_append]
    refine ⟨?_, ?_, ?_⟩
    · rw [(primaryPass_spec rest f).1]
      exact h f (List.mem_cons_self f rest)
    · apply ih
      intro c hc
      rcases (primaryPass_spec rest f).2 c hc with hnil | ⟨hmem, _⟩
      · subst hnil
        simp
      · exact h c (List.mem_cons_of_mem f hmem)
    · intro k hk1 hk2
      rw [(primaryPass_spec rest f).1] at hk1
      rcases List.mem_map.mp hk2 with ⟨r, hr, hrk⟩
      rcases List.mem_flatMap.mp hr with ⟨df, hdf, hrdf⟩
      have hkdf : k ∈ df.map (fun r => r.1) := List.mem_map.mpr ⟨r, hrdf, hrk⟩
      rcases proc_subdata_keys_sub _ df hdf k hkdf with ⟨c, hc, hkc⟩
      rcases (primaryPass_spec rest f).2 c hc with hnil | ⟨_, hdisj⟩
      · subst hnil
        cases hkc
      · exact hdisj k hk1 hkc

theorem mapM_chunkCount_mem (chunks : List (List String)) :
    ∀ tcs, chunks.mapM chunkCount = some tcs →
      ∀ c ∈ tcs, ∃ chunk, chunkCount chunk = some c := by
  induction chunks with
  | nil =>
    intro tcs h c hc
    simp only [List.mapM_nil, pure, Option.some.injEq] at h
    subst h
    cases hc
  | cons ch chs ih =>
    intro tcs h c hc
    rw [List.mapM_cons] at h
    cases h1 : chunkCount ch with
    | none =>
      rw [h1] at h
      simp at h
    | some b =>
      rw [h1] at h
      cases h2 : chs.mapM chunkCount with
      | none =>
        rw [h2] at h
        simp at h
      | some bs =>
        rw [h2] at h
        simp only [Option.bind_eq_bind, Option.some_bind, pure, Option.some.injEq] at h
        subst h
        rcases List.mem_cons.mp hc with hh | ht
        · exact ⟨ch, hh ▸ h1⟩
        · exact ih bs h2 c ht

/-- C5: each canonical pair appears at most once in the final report: the
keys of the concatenation of all rows ever appended to the report file are
pairwise distinct. -/
theorem C5_no_duplicate_pairs_in_report (limit : Nat) (lines : List String)
    (report : List CountDF) (h : pipelineReport limit lines = some report) :
    ((report.flatMap id).map (fun r => r.1)).Nodup := by
  unfold pipelineReport at h
  cases htc : pipelineTupleCounts limit lines with
  | none =>
    rw [htc] at h
    cases h
  | some tcs =>
    rw [htc, Option.map_some'] at h
    injection h with h
    subst h
    apply proc_subdata_flat_keys_nodup
    intro c hc
    unfold pipelineTupleCounts at htc
    rcases mapM_chunkCount_mem _ tcs htc c hc with ⟨chunk, hchunk⟩
    unfold chunkCount at hchunk
    rcases Option.map_eq_some'.mp hchunk with ⟨fob, _, hfob⟩
    rw [← hfob]
    exact count_product_tuples_keys_nodup fob

/-- Witness for C5: the concrete run on the two-record basket `1 = {A,B}`
with `line_limit = 1` produces the report `[[(A,B) ↦ 1]]`, whose keys are
duplicate-free. -/
theorem C5_witness :
    ((([[(("A","B"),1)]] : List CountDF).flatMap id).map (fun r => r.1)).Nodup :=
  C5_no_duplicate_pairs_in_report 1 ["1,A","1,B"] [[(("A","B"),1)]] (by
    have htc : pipelineTupleCounts 1 ["1,A","1,B"] = some [[(("A","B"),1)]] := by
      simp [pipelineTupleCounts, create_subfiles, fileLoop]
      rfl
    rw [pipelineReport, htc, Option.map_some']
    congr 1
    simp [proc_subdata, primaryPass])

/-!
## C7 — a chunking failure does not stop the pipeline

`create_subfiles` catches any exception, prints it, and returns `False`
(source lines 112-114).  `__main__` (line 257) discards this return value:
lines 259-263 glob whatever `subdata*.csv` files exist and run basket
assembly, pair counting and the merge on them regardless.  The input stream
is modelled as a list of `readline` results, with `none` marking a read that
raises an I/O error.
-/

/-- Inner chunker loop over an erroring stream: `none` makes `readline`
raise; the exception escapes the loops (third component `false`), leaving
the lines already written in the current chunk file on disk. -/
def fileLoopE (limit : Nat) : Nat → String → List (Option String) →
    List String × List (Option String) × Bool
  | _, cur, [] => ([cur], [], true)
  | _, cur, none :: _ => ([cur], [], false)
  | counter, cur, some next :: rest =>
    if counter = limit ∧ next = cur then
      let r := fileLoopE limit counter next rest
      (cur :: r.1, r.2.1, r.2.2)
    else if counter + 1 ≤ limit then
      let r := fileLoopE limit (counter + 1) next rest
      (cur :: r.1, r.2.1, r.2.2)
    else
      ([cur], some next :: rest, true)

theorem fileLoopE_rem_length_le (limit : Nat) :
    ∀ counter cur stream, (fileLoopE limit counter cur stream).2.1.length ≤ stream.length := by
  intro counter cur stream
  induction stream generalizing counter cur with
  | nil => simp [fileLoopE]
  | cons next rest ih =>
    cases next with
    | none => simp [fileLoopE]
    | some next =>
      rw [fileLoopE]
      split
      · have := ih counter next
        exact Nat.le_trans (by exact this) (Nat.le_succ _)
      · split
        · have := ih (counter + 1) next
          exact Nat.le_trans (by exact this) (Nat.le_succ _)
        · simp

/-- `create_subfiles` on an erroring stream: the chunk files left on disk
and the function's return value (`False` exactly when the handler of source
lines 112-114 caught an error). -/
def create_subfilesE (limit : Nat) (stream : List (Option String)) :
    List (List String) × Bool :=
  match stream with
  | [] => ([], true)
  | none :: _ => ([], false)
  | some cur :: rest =>
    if (fileLoopE limit 0 cur rest).2.2 then
      ((fileLoopE limit 0 cur rest).1 :: (create_subfilesE limit (fileLoopE limit 0 cur rest).2.1).1,
        (create_subfilesE limit (fileLoopE limit 0 cur rest).2.1).2)
    else
      ([(fileLoopE limit 0 cur rest).1], false)
termination_by stream.length
decreasing_by
  all_goals exact Nat.lt_succ_of_le (fileLoopE_rem_length_le limit 0 cur rest)

/-- `__main__` (source lines 257-263): the Boolean result of
`create_subfiles` is discarded, and the later stages run unconditionally on
the chunk files found on disk. -/
def main_model (limit : Nat) (stream : List (Option String)) :
    Bool × Option (List CountDF) :=
  ((create_subfilesE limit stream).2,
    ((create_subfilesE limit stream).1.mapM chunkCount).map proc_subdata)

/-- C7: on a stream whose third read raises an I/O error, `create_subfiles`
returns `False` — yet the pipeline still assembles, counts and merges the
incomplete chunk data, producing the report `[[(A,B) ↦ 1]]`: the failure
does not prevent the later stages from running. -/
theorem C7_failed_chunking_still_processed :
    main_model 5 [some "1,A", some "1,B", none]
      = (false, some [[(("A","B"),1)]]) := by
  have h1 : create_subfilesE 5 [some "1,A", some "1,B", none]
      = ([["1,A","1,B"]], false) := by
    simp [create_subfilesE, fileLoopE]
  unfold main_model
  rw [h1]
  have h2 : ([["1,A","1,B"]].mapM chunkCount) = some [[(("A","B"),1)]] := rfl
  rw [h2, Option.map_some']
  have h3 : proc_subdata [[(("A","B"),1)]] = [[(("A","B"),1)]] := by
    simp [proc_subdata, primaryPass]
  rw [h3]

/-!
## C8 — run-to-run determinism of the report

Every stage is a pure function of its input, so the only run-to-run
variation in the pipeline is the arbitrary filesystem order in which
`glob.glob('subdata*.csv')` enumerates the chunk files in `__main__`
(source line 259).  Each enumeration order is a permutation of the chunk
indices; each processed chunk writes its own tuplecount file whose content
depends only on that chunk, and `proc_subdata` sorts the tuplecount files
by name (source line 184), i.e. back into chunk-index order.  The report is
therefore the same for every enumeration order — in particular, two runs on
the same input and line budget (with intermediates cleared in between, as
source lines 79-80 do) produce identical reports.
-/

/-- The tuplecount files written when the per-chunk stage processes the
chunk files in glob order `order` (indices into the chunk list): one write
of `(index, content)` per successfully processed chunk, in processing
order. -/
def writesOf (order : List Nat) (chunks : List (List String)) : List (Nat × CountDF) :=
  order.filterMap (fun i => (chunks[i]?.bind chunkCount).map (fun tc => (i, tc)))

/-- Reading the tuplecount files back sorted by filename — i.e. by chunk
index `0, …, n-1` — as `proc_subdata` does. -/
def readTuplecounts (writes : List (Nat × CountDF)) (n : Nat) : Option (List CountDF) :=
  (List.range n).mapM (fun i => (writes.find? (fun w => w.1 = i)).map (fun w => w.2))

/-- The full pipeline with the per-chunk stage executed in glob order
`order`. -/
def pipelineReportOrdered (order : List Nat) (limit : Nat) (lines : List String) :
    Option (List CountDF) :=
  (readTuplecounts (writesOf order (create_subfiles limit lines))
      (create_subfiles limit lines).length).map proc_subdata

theorem writesOf_spec (order : List Nat) (chunks : List (List String)) :
    ∀ w ∈ writesOf order chunks, chunks[w.1]?.bind chunkCount = some w.2 := by
  intro w hw
  rcases List.mem_filterMap.mp hw with ⟨i, _, hf⟩
  rcases Option.map_eq_some'.mp hf with ⟨tc, htc, hq⟩
  rw [← hq]
  exact htc

theorem writesOf_find? (order : List Nat) (chunks : List (List String))
    (i : Nat) (hi : i ∈ order) :
    (writesOf order chunks).find? (fun w => w.1 = i)
      = (chunks[i]?.bind chunkCount).map (fun tc => (i, tc)) := by
  cases hf : (writesOf order chunks).find? (fun w => w.1 = i) with
  | some w =>
    have hwi : w.1 = i := by simpa using List.find?_some hf
    have hval := writesOf_spec order chunks w (List.mem_of_find?_eq_some hf)
    rw [hwi] at hval
    rw [hval]
    simp [← hwi]
  | none =>
    cases hv : chunks[i]?.bind chunkCount with
    | none => rfl
    | some tc =>
      exfalso
      have hmem : (i, tc) ∈ writesOf order chunks := by
        apply List.mem_filterMap.mpr
        exact ⟨i, hi, by rw [hv]; rfl⟩
      have := List.find?_eq_none.mp hf (i, tc) hmem
      simp at this

theorem mapM_congr_option {α β : Type} (l : List α) (f g : α → Option β)
    (h : ∀ a ∈ l, f a = g a) : l.mapM f = l.mapM g := by
  induction l with
  | nil => rfl
  | cons a as ih =>
    rw [List.mapM_cons, List.mapM_cons, h a (List.mem_cons_self a as),
      ih (fun x hx => h x (List.mem_cons_of_mem a hx))]

theorem mapM_map_option {γ α β : Type} (l : List γ) (g : γ → α) (f : α → Option β) :
    (l.map g).mapM f = l.mapM (fun x => f (g x)) := by
  induction l with
  | nil => rfl
  | cons a as ih =>
    rw [List.map_cons, List.mapM_cons, List.mapM_cons, ih]

theorem mapM_range_getElem {γ β : Type} (l : List γ) (f : γ → Option β) :
    (List.range l.length).mapM (fun i => l[i]?.bind f) = l.mapM f := by
  induction l with
  | nil => rfl
  | cons a as ih =>
    rw [List.length_cons, List.range_succ_eq_map, List.mapM_cons, List.mapM_cons]
    have h0 : (a :: as)[0]?.bind f = f a := by simp
    rw [h0]
    have hmap : (List.map Nat.succ (List.range as.length)).mapM
        (fun i => (a :: as)[i]?.bind f)
        = (List.range as.length).mapM (fun i => as[i]?.bind f) := by
      rw [mapM_map_option]
      apply mapM_congr_option
      intro i _
      simp
    rw [hmap, ih]

/-- C8: the final report does not depend on the order in which the glob of
`__main__` enumerates the chunk files: for every permutation `order` of the
chunk indices, running the per-chunk stage in that order and merging yields
exactly the canonical pipeline report.  Since every stage is a pure
function of the input stream and the line budget, two runs on the same
input and `line_limit` (with intermediates cleared between runs) produce
identical reports. -/
theorem C8_report_independent_of_glob_order (limit : Nat) (lines : List String)
    (order : List Nat)
    (h : order.Perm (List.range (create_subfiles limit lines).length)) :
    pipelineReportOrdered order limit lines = pipelineReport limit lines := by
  unfold pipelineReportOrdered pipelineReport pipelineTupleCounts
  congr 1
  unfold readTuplecounts
  have hcongr : ∀ i ∈ List.range (create_subfiles limit lines).length,
      ((writesOf order (create_subfiles limit lines)).find? (fun w => w.1 = i)).map
          (fun w => w.2)
        = (create_subfiles limit lines)[i]?.bind chunkCount := by
    intro i hi
    rw [writesOf_find? order _ i (h.mem_iff.mpr hi), Option.map_map]
    cases (create_subfiles limit lines)[i]?.bind chunkCount <;> rfl
  rw [mapM_congr_option _ _ _ hcongr, mapM_range_getElem]

/-- Witness for C8: on the single-chunk run `1,A 1,B` with `line_limit = 1`
and glob order `[0]`, the order-sensitive pipeline yields the canonical
report. -/
theorem C8_witness :
    pipelineReportOrdered [0] 1 ["1,A","1,B"] = pipelineReport 1 ["1,A","1,B"] :=
  C8_report_independent_of_glob_order 1 ["1,A","1,B"] [0] (by
    have hlen : (create_subfiles 1 ["1,A","1,B"]).length = 1 := by
      simp [create_subfiles, fileLoop]
    rw [hlen]
    rfl)
